import Mathlib

/-!
Verification of the workflow-engine execution core
(`app/engine/executor.py`, `app/engine/state_manager.py`,
`app/engine/graph_manager.py`, `app/models/graph.py`,
`app/models/execution.py`, `app/tools/registry.py`).

The Python code is shallowly embedded: Python scalar values become the
inductive type `PyVal`, state dictionaries become insertion-ordered
association lists (`PyDict`), handlers become Lean functions returning a
`HandlerResult`, and the executor's `while` loop becomes a fuel-indexed
recursion (`execLoop`).  Wall-clock fields of the log entries
(`timestamp`, `duration_ms`) are not modelled; every other field is.
-/

namespace Workflow

/-- Python scalar values that can appear in a workflow state dictionary
or in a condition's comparison value. -/
inductive PyVal where
  | none : PyVal
  | bool : Bool → PyVal
  | int : Int → PyVal
  | str : String → PyVal
deriving DecidableEq, Repr

/-- A Python dictionary, modelled as an insertion-ordered association
list (Python dicts preserve insertion order; keys are unique, which the
assignment operation maintains).  The engine uses dicts at several
instantiations: workflow state (`str → value`), loop counters
(`str → int`), the `loops` mapping of a graph, and — in the heap model
below — dict objects themselves. -/
abbrev PyMapList (κ ν : Type) : Type := List (κ × ν)

/-- `k in d` / `d.get(k)` distinguishing presence: the value at the
first entry whose key is `k`. -/
def pmFind? {κ ν : Type} [BEq κ] (d : PyMapList κ ν) (k : κ) : Option ν :=
  (d.find? (fun p => p.1 == k)).map (fun p => p.2)

/-- `d.get(k, dflt)` for a Python dict. -/
def pmGetD {κ ν : Type} [BEq κ] (d : PyMapList κ ν) (k : κ) (dflt : ν) : ν :=
  (pmFind? d k).getD dflt

/-- Assignment `d[k] = v` on a Python dict: overwrite in place when the
key exists (keeping its position), append otherwise. -/
def pmSet {κ ν : Type} [BEq κ] (d : PyMapList κ ν) (k : κ) (v : ν) :
    PyMapList κ ν :=
  if d.any (fun p => p.1 == k) then
    d.map (fun p => if p.1 == k then (k, v) else p)
  else
    d ++ [(k, v)]

/-- `d.update(u)` on a Python dict (state_manager.py line 62): each
entry of `u` is assigned into `d` in order. -/
def pmUpdate {κ ν : Type} [BEq κ] (d u : PyMapList κ ν) : PyMapList κ ν :=
  u.foldl (fun acc p => pmSet acc p.1 p.2) d

/-- A workflow state dictionary: string keys, scalar values. -/
abbrev PyDict : Type := PyMapList String PyVal

/-- `state.get(condition.field)` (executor.py line 182): the field's
value, defaulting to Python `None` when the key is absent. -/
def dictGet (d : PyDict) (k : String) : PyVal :=
  pmGetD d k PyVal.none

/-- Presence-aware lookup in a state dictionary. -/
def dictLookup (d : PyDict) (k : String) : Option PyVal :=
  pmFind? d k

/-- `dict.update` on a state dictionary. -/
def dictUpdate (d u : PyDict) : PyDict :=
  pmUpdate d u

/-- Numeric view of a Python value: Python treats `bool` as an `int`
subtype, so `True == 1` and `True < 2` hold. -/
def pyNum : PyVal → Option Int
  | PyVal.bool b => Option.some (if b then 1 else 0)
  | PyVal.int n => Option.some n
  | _ => Option.none

/-- Python `==` on the modelled scalars: numeric values compare by
value across `bool`/`int`, strings compare as strings, `None` equals
only `None`; any other cross-type comparison is `False` (never an
error). -/
def pyEq (a b : PyVal) : Bool :=
  match pyNum a, pyNum b with
  | Option.some m, Option.some n => m == n
  | _, _ =>
    match a, b with
    | PyVal.none, PyVal.none => true
    | PyVal.str s, PyVal.str t => s == t
    | _, _ => false

/-- Python ordering comparison on the modelled scalars: defined between
two numeric values (`bool`/`int`) or two strings; every other pairing
raises `TypeError`, modelled as `Option.none`. -/
def pyCmp (a b : PyVal) : Option Ordering :=
  match pyNum a, pyNum b with
  | Option.some m, Option.some n => Option.some (compare m n)
  | _, _ =>
    match a, b with
    | PyVal.str s, PyVal.str t => Option.some (compare s t)
    | _, _ => Option.none

/-- `ConditionConfig` (models/graph.py): a state field, a comparison
operator name, and a comparison value. -/
structure ConditionConfig where
  field : String
  operator : String
  value : PyVal
deriving DecidableEq, Repr

/-- The operator table of `_evaluate_condition` (executor.py lines
186-204) applied to two values: an operator name outside the table
yields `false` (`operators.get` returning `None`, line 196), and a
comparison that raises `TypeError` yields `false` (the
`except TypeError` arm, line 201). -/
def applyOp (op : String) (a b : PyVal) : Bool :=
  if op == "eq" then pyEq a b
  else if op == "ne" then !(pyEq a b)
  else if op == "gt" then
    match pyCmp a b with
    | Option.some Ordering.gt => true
    | _ => false
  else if op == "lt" then
    match pyCmp a b with
    | Option.some Ordering.lt => true
    | _ => false
  else if op == "gte" then
    match pyCmp a b with
    | Option.some Ordering.gt => true
    | Option.some Ordering.eq => true
    | _ => false
  else if op == "lte" then
    match pyCmp a b with
    | Option.some Ordering.lt => true
    | Option.some Ordering.eq => true
    | _ => false
  else false

/-- `WorkflowExecutor._evaluate_condition` (executor.py lines 171-204):
read `state.get(condition.field)` (missing key → `None`), then apply
the operator. -/
def evaluateCondition (c : ConditionConfig) (state : PyDict) : Bool :=
  applyOp c.operator (dictGet state c.field) c.value

/-- `LoopConfig` (models/graph.py): loop-continuation condition plus an
iteration ceiling. -/
structure LoopConfig where
  condition : ConditionConfig
  max_iterations : Nat
deriving DecidableEq, Repr

/-- `NodeConfig` (models/graph.py): node name and handler name (the
optional human-readable description plays no role in execution). -/
structure NodeConfig where
  name : String
  handler : String
deriving DecidableEq, Repr

/-- `EdgeConfig` (models/graph.py): source, target, optional guard. -/
structure EdgeConfig where
  source : String
  target : String
  condition : Option ConditionConfig
deriving DecidableEq, Repr

/-- `GraphConfig` (models/graph.py).  `loops` is
`Optional[Dict[str, LoopConfig]]` in the source; `None` and the empty
dict behave identically in the executor (`if graph.loops and
current_node in graph.loops`), so both are modelled as `[]`. -/
structure GraphConfig where
  name : String
  nodes : List NodeConfig
  edges : List EdgeConfig
  entry_node : String
  loops : List (String × LoopConfig)
deriving DecidableEq, Repr

/-- Lookup of `graph.loops[node]` combined with the membership test
`graph.loops and current_node in graph.loops` (executor.py line 73). -/
def lookupLoop (loops : List (String × LoopConfig)) (node : String) :
    Option LoopConfig :=
  pmFind? loops node

/-! ## Graph validator (`GraphManager._validate_graph`) -/

/-- The node-name set `{node.name for node in config.nodes}`
(graph_manager.py line 67); membership is all that is used of it, so a
list suffices. -/
def nodeNames (g : GraphConfig) : List String :=
  g.nodes.map (fun n => n.name)

/-- Error message appended for a missing entry node (graph_manager.py
line 72; quoting of the name is elided). -/
def entryMsg (n : String) : String :=
  "Entry node " ++ n ++ " not found in nodes"

/-- Error message appended for a missing edge source (line 78). -/
def edgeSourceMsg (s : String) : String :=
  "Edge source " ++ s ++ " not found in nodes"

/-- Error message appended for a missing edge target (line 80). -/
def edgeTargetMsg (t : String) : String :=
  "Edge target " ++ t ++ " not found in nodes"

/-- Error message appended for a missing loop key (line 87). -/
def loopMsg (n : String) : String :=
  "Loop node " ++ n ++ " not found in nodes"

/-- The edge loop of `_validate_graph` (lines 76-80): for each edge in
order, append an error for an unknown source and then for an unknown
target. -/
def edgeErrors (names : List String) : List EdgeConfig → List String
  | [] => []
  | e :: rest =>
      (if names.contains e.source then [] else [edgeSourceMsg e.source]) ++
      (if names.contains e.target then [] else [edgeTargetMsg e.target]) ++
      edgeErrors names rest

/-- The loop-key loop of `_validate_graph` (lines 84-87): for each loop
key in order, append an error when it is not a node name. -/
def loopErrors (names : List String) : List (String × LoopConfig) → List String
  | [] => []
  | p :: rest =>
      (if names.contains p.1 then [] else [loopMsg p.1]) ++ loopErrors names rest

/-- `GraphManager._validate_graph` (graph_manager.py lines 58-95) as the
list of error strings it accumulates; the method raises
`ValidationError` with exactly this list when it is non-empty and
returns normally when it is empty. -/
def validateGraph (g : GraphConfig) : List String :=
  let names := nodeNames g
  (if names.contains g.entry_node then [] else [entryMsg g.entry_node]) ++
  edgeErrors names g.edges ++
  loopErrors names g.loops

/-! ## Handlers, run data and the state manager -/

/-- The value a handler returns: a mapping (`isinstance(result, dict)`
holds) or any non-mapping value. -/
inductive PyRet where
  | dict : PyDict → PyRet
  | scalar : PyVal → PyRet
deriving DecidableEq, Repr

/-- Outcome of invoking a handler on a state: a returned value, or an
exception carrying a message. -/
inductive HandlerResult where
  | ok : PyRet → HandlerResult
  | raises : String → HandlerResult
deriving DecidableEq, Repr

/-- A registered tool: a function from a state dictionary to a result. -/
abbrev Handler : Type := PyDict → HandlerResult

/-- `ToolRegistry` (tools/registry.py): lookup by name; `Option.none`
models the `ToolNotFoundError` raised by `get` for unknown names. -/
abbrev Registry : Type := String → Option Handler

/-- `ExecutionLog` (models/execution.py) without the wall-clock fields
`timestamp` and `duration_ms`, which no claim concerns. -/
structure ExecutionLog where
  node : String
  state_before : PyDict
  state_after : PyDict
  status : String
deriving DecidableEq, Repr

/-- `RunData` (models/execution.py) without the timestamp fields.  The
storage backend holds one `RunData` per run and the executor touches
only its own run, so the stored record is threaded through execution
directly. -/
structure RunData where
  run_id : String
  graph_id : String
  current_state : PyDict
  status : String
  execution_log : List ExecutionLog
deriving DecidableEq, Repr

/-- `ExecutionResult` (models/execution.py). -/
structure ExecutionResult where
  run_id : String
  graph_id : String
  status : String
  final_state : PyDict
  execution_log : List ExecutionLog
  error : Option String
deriving DecidableEq, Repr

/-- `StateManager.initialize` (state_manager.py lines 25-39): create the
run record with a copy of the caller's initial state, status
`running`, and an empty execution log.  The `.copy()` is a Python
shallow dict copy, which at the level of entries is the identity (the
aliasing of nested values it leaves behind is modelled separately in
the `Heap` section below). -/
def initRun (run_id graph_id : String) (initial_state : PyDict) : RunData :=
  { run_id := run_id, graph_id := graph_id, current_state := initial_state,
    status := "running", execution_log := [] }

/-- `StateManager.get_state` (lines 41-47): the stored current state (a
shallow copy of it in the source; entry-wise the identity). -/
def getState (run : RunData) : PyDict :=
  run.current_state

/-- `StateManager.update_state` (lines 56-64): `dict.update` of the
handler result into the stored state. -/
def updateState (run : RunData) (updates : PyDict) : RunData :=
  { run with current_state := dictUpdate run.current_state updates }

/-- `StateManager.complete_run` (lines 82-91): set the status (the
completion timestamp is not modelled); nothing else changes. -/
def completeRun (run : RunData) (status : String) : RunData :=
  { run with status := status }

/-! ## The executor (`WorkflowExecutor`) -/

/-- Message of `ToolNotFoundError` (exceptions.py line 84; quoting
elided). -/
def toolNotFoundMsg (tool_name : String) : String :=
  "Tool not found: " ++ tool_name

/-- Message of `NodeExecutionError` (exceptions.py line 117; quoting
elided). -/
def nodeExecutionMsg (node_name msg : String) : String :=
  "Node execution failed at " ++ node_name ++ ": " ++ msg

/-- Message of `LoopLimitError` (exceptions.py line 100; quoting
elided). -/
def loopLimitMsg (node_name : String) (max_iterations : Nat) : String :=
  "Loop limit exceeded at node " ++ node_name ++ ": max " ++
    toString max_iterations ++ " iterations"

/-- `str(e)` of the bare `StopIteration` raised by
`next(n for n in graph.nodes if n.name == node_name)` (executor.py line
132) when the current node is not in the node list: the empty string. -/
def stopIterationMsg : String := ""

/-- `WorkflowExecutor._execute_node` (executor.py lines 120-169).  Any
exception escaping it is an `Except.error` with the exception's
`str(e)`: the node lookup raising `StopIteration`, the registry raising
`ToolNotFoundError`, or the handler raising (wrapped into
`NodeExecutionError`, line 149).  On success it returns the log entry
(status `success`, state snapshots before and after) and the run with
the handler's mapping result merged — a non-mapping result is ignored
(lines 155-156). -/
def executeNode (registry : Registry) (graph : GraphConfig)
    (node_name : String) (run : RunData) :
    Except String (ExecutionLog × RunData) :=
  match graph.nodes.find? (fun n => n.name == node_name) with
  | Option.none => Except.error stopIterationMsg
  | Option.some node_config =>
    match registry node_config.handler with
    | Option.none => Except.error (toolNotFoundMsg node_config.handler)
    | Option.some handler =>
      let state_before := getState run
      match handler state_before with
      | HandlerResult.raises msg => Except.error (nodeExecutionMsg node_name msg)
      | HandlerResult.ok ret =>
        let run1 :=
          match ret with
          | PyRet.dict updates => updateState run updates
          | PyRet.scalar _ => run
        Except.ok ({ node := node_name, state_before := state_before,
                     state_after := getState run1, status := "success" }, run1)

/-- `WorkflowExecutor._get_next_node` (executor.py lines 206-236): the
target of the first edge in declaration order whose source is the
current node and whose condition is absent or evaluates true against
the current state; `Option.none` (Python `None`) when no edge matches. -/
def getNextNode (current : String) (state : PyDict) (graph : GraphConfig) :
    Option String :=
  (graph.edges.find? (fun e =>
      e.source == current &&
      (match e.condition with
       | Option.none => true
       | Option.some c => evaluateCondition c state))).map (fun e => e.target)

/-- `loop_counts.get(current_node, 0)` (executor.py line 75). -/
def loopCount (counts : List (String × Nat)) (node : String) : Nat :=
  pmGetD counts node 0

/-- `loop_counts[current_node] = c` (executor.py line 75). -/
def setLoopCount (counts : List (String × Nat)) (node : String) (c : Nat) :
    List (String × Nat) :=
  pmSet counts node c

/-- Outcome of one iteration of the executor's `while` loop: the run
finished (normally or by a caught exception) with a result, or
traversal continues with updated loop bookkeeping. -/
inductive StepResult where
  | done (result : ExecutionResult) (run : RunData)
  | next (current : Option String) (loop_counts : List (String × Nat))
      (log : List ExecutionLog) (run : RunData)
deriving Repr

/-- One iteration of the `while current_node is not None` body
(executor.py lines 65-92), with the surrounding `except Exception`
handler (lines 106-118) applied to any exception the body raises: node
execution and log append, then the loop-policy check (count increment,
limit check raising `LoopLimitError`, condition evaluation with
`continue` on true), then edge-based advancement. -/
def execStep (registry : Registry) (graph : GraphConfig) (node : String)
    (loop_counts : List (String × Nat)) (log : List ExecutionLog)
    (run : RunData) : StepResult :=
  match executeNode registry graph node run with
  | Except.error e =>
      let run1 := completeRun run "failed"
      StepResult.done
        { run_id := run.run_id, graph_id := run.graph_id, status := "failed",
          final_state := getState run1, execution_log := log,
          error := Option.some e } run1
  | Except.ok (entry, run1) =>
      let log1 := log ++ [entry]
      match lookupLoop graph.loops node with
      | Option.some loop_config =>
          let c := loopCount loop_counts node + 1
          let counts1 := setLoopCount loop_counts node c
          if loop_config.max_iterations < c then
            let run2 := completeRun run1 "failed"
            StepResult.done
              { run_id := run1.run_id, graph_id := run1.graph_id,
                status := "failed", final_state := getState run2,
                execution_log := log1,
                error := Option.some (loopLimitMsg node loop_config.max_iterations) }
              run2
          else if evaluateCondition loop_config.condition (getState run1) then
            StepResult.next (Option.some node) counts1 log1 run1
          else
            StepResult.next (getNextNode node (getState run1) graph) counts1 log1 run1
      | Option.none =>
          StepResult.next (getNextNode node (getState run1) graph) loop_counts log1 run1

/-- The executor's `while` loop (executor.py lines 65-104) as a
fuel-indexed recursion; `Option.none` means the fuel ran out before the
run reached a terminal state (the source loop has no built-in bound and
need not terminate).  When `current` is `None` the loop exits, the run
is completed and the result assembled (lines 94-104). -/
def execLoop (registry : Registry) (graph : GraphConfig) :
    Nat → Option String → List (String × Nat) → List ExecutionLog →
    RunData → Option (ExecutionResult × RunData)
  | 0, _, _, _, _ => Option.none
  | Nat.succ fuel, current, counts, log, run =>
    match current with
    | Option.none =>
        let run1 := completeRun run "completed"
        Option.some
          ({ run_id := run1.run_id, graph_id := run1.graph_id,
             status := "completed", final_state := run1.current_state,
             execution_log := log, error := Option.none }, run1)
    | Option.some node =>
        match execStep registry graph node counts log run with
        | StepResult.done r rd => Option.some (r, rd)
        | StepResult.next c2 counts2 log2 run2 =>
            execLoop registry graph fuel c2 counts2 log2 run2

/-- `WorkflowExecutor.execute` (executor.py lines 41-118): create the
run record from a copy of the initial state, then traverse from the
entry node with empty loop counts and an empty local execution log.
The generated `run_id` is passed in (uuid generation is external
nondeterminism); the graph is passed directly in place of its
storage lookup. -/
def executeGraph (registry : Registry) (graph : GraphConfig)
    (run_id graph_id : String) (initial_state : PyDict) (fuel : Nat) :
    Option (ExecutionResult × RunData) :=
  execLoop registry graph fuel (Option.some graph.entry_node) [] []
    (initRun run_id graph_id initial_state)

/-! ## Heap model of Python dict copying

The flat model above treats dictionaries as values, which is exact for
the scalar states the engine's conditions operate on but cannot express
aliasing of *nested* mutable values.  This section models Python's
object semantics directly: every dict is an object at a numeric heap
address, a dict's entries map keys to scalars or references (`href`) to
other dict objects, and `dict.copy()` — the operation used by
`StateManager.initialize` (state_manager.py line 33),
`StateManager.get_state` (line 47) and the handler hand-off
`handler(state_before.copy())` (executor.py line 146) — allocates a
fresh top-level object holding the *same entries*, references
included.  Python's `copy` method is shallow; it never clones the
objects behind references. -/

/-- A value stored in a heap dict: an integer, a string, or a reference
to another dict object on the heap. -/
inductive HVal where
  | hint : Int → HVal
  | hstr : String → HVal
  | href : Nat → HVal
deriving DecidableEq, Repr

/-- The entries of one dict object. -/
abbrev HDict : Type := PyMapList String HVal

/-- The heap: dict objects keyed by address. -/
abbrev Heap : Type := PyMapList Nat HDict

/-- Key lookup in one dict object. -/
def hdictLookup (d : HDict) (k : String) : Option HVal :=
  pmFind? d k

/-- In-place assignment `d[k] = v` on one dict object's entries. -/
def hdictSet (d : HDict) (k : String) (v : HVal) : HDict :=
  pmSet d k v

/-- Dereference an address to a dict object's entries. -/
def heapLookup (h : Heap) (a : Nat) : Option HDict :=
  pmFind? h a

/-- In-place mutation `obj[k] = v` of the dict object at address `a`
(the mutation a handler can perform on any dict it can reach). -/
def heapSet (h : Heap) (a : Nat) (k : String) (v : HVal) : Heap :=
  h.map (fun p => if p.1 == a then (p.1, hdictSet p.2 k v) else p)

/-- An address not used by any object of the heap. -/
def freshAddr (h : Heap) : Nat :=
  (h.map (fun p => p.1)).foldr (fun x m => max x m) 0 + 1

/-- Python `dict.copy()` on the object at address `a`: allocate a fresh
top-level object whose entries are exactly those of the original —
shallow, so `href` entries keep referring to the same nested objects.
This is the copy `StateManager.initialize` makes of the caller's
`initial_state` and the copy handed to every handler. -/
def pyDictCopy (h : Heap) (a : Nat) : Option (Heap × Nat) :=
  match heapLookup h a with
  | Option.none => Option.none
  | Option.some d =>
    Option.some (h ++ [(freshAddr h, d)], freshAddr h)

/-- Read `obj[k1][k2]` starting from the dict object at address `a`:
the view an owner of that object has of a nested value. -/
def nestedRead (h : Heap) (a : Nat) (k1 k2 : String) : Option HVal :=
  match heapLookup h a with
  | Option.none => Option.none
  | Option.some d =>
    match hdictLookup d k1 with
    | Option.some (HVal.href b) =>
      match heapLookup h b with
      | Option.some d2 => hdictLookup d2 k2
      | _ => Option.none
    | _ => Option.none

/-! ## Spec-side predicates and concrete instances -/

/-- The spec's edge-matching property, stated independently of the
implementation: the edge leaves `current` and its condition is absent
or evaluates true against `state`. -/
def EdgeTakable (current : String) (state : PyDict) (e : EdgeConfig) : Prop :=
  e.source = current ∧
  (e.condition = Option.none ∨
   ∃ c, e.condition = Option.some c ∧ evaluateCondition c state = true)

/-- A handler that ignores the state and returns Python `None`, a
non-mapping value (so the state is never modified). -/
def constNoneHandler : Handler :=
  fun _ => HandlerResult.ok (PyRet.scalar PyVal.none)

/-- A handler that raises an exception with message `boom`. -/
def raisingHandler : Handler :=
  fun _ => HandlerResult.raises "boom"

/-- A handler that ignores the state and returns the mapping
`{a: 2, b: 3}` (the spec's merge example). -/
def mergeHandler : Handler :=
  fun _ => HandlerResult.ok (PyRet.dict [("a", PyVal.int 2), ("b", PyVal.int 3)])

/-- A registry holding a single tool. -/
def oneToolReg (tool : String) (h : Handler) : Registry :=
  fun n => if n == tool then Option.some h else Option.none

/-- A condition reading a field that the runs below never set: the
missing field is the absence value `None`, which compares `eq` to
`None`, so the condition evaluates true at every iteration of those
runs. -/
def condMissingEqNone : ConditionConfig :=
  { field := "missing", operator := "eq", value := PyVal.none }

/-- A one-node graph whose node carries a loop policy: node `nm` with
handler `hn`, no edges, loop condition `c`, iteration ceiling `m`. -/
def loopGraph (nm hn : String) (c : ConditionConfig) (m : Nat) : GraphConfig :=
  { name := "loop", nodes := [{ name := nm, handler := hn }], edges := [],
    entry_node := nm, loops := [(nm, { condition := c, max_iterations := m })] }

/-- A one-node graph with no edges and no loops. -/
def soloGraph : GraphConfig :=
  { name := "solo", nodes := [{ name := "a", handler := "h" }], edges := [],
    entry_node := "a", loops := [] }

/-- The effect of one successful node execution on the run's state
(executor.py lines 146-156): a mapping result is merged into the state
via `dict.update`, any other result leaves it unchanged.  Used to state
what repeated executions of a looping node do to the state. -/
def handlerStep (h : Handler) (s : PyDict) : PyDict :=
  match h s with
  | HandlerResult.ok (PyRet.dict u) => dictUpdate s u
  | _ => s

/-- The run's state after `j` successful executions of a node with
handler `h`, starting from `s`. -/
def iterState (h : Handler) (s : PyDict) : Nat → PyDict
  | 0 => s
  | Nat.succ j => iterState h (handlerStep h s) j

/-- The trace entries produced by `j` successful executions of node
`node` with handler `h`, starting from state `s`: each entry records
the state before and after that execution with status `success`
(executor.py lines 162-169). -/
def loopTrace (h : Handler) (node : String) (s : PyDict) : Nat → List ExecutionLog
  | 0 => []
  | Nat.succ j =>
      { node := node, state_before := s, state_after := handlerStep h s,
        status := "success" } :: loopTrace h node (handlerStep h s) j

/-- A two-node graph in the shape of the repository's `code_review`
workflow: the entry node `extract` flows by an unconditional edge into
the downstream node `improve`, which carries a LoopPolicy with ceiling
3; the loop condition reads the state field `a`. -/
def reviewGraph : GraphConfig :=
  { name := "cr",
    nodes := [{ name := "extract", handler := "he" },
              { name := "improve", handler := "h" }],
    edges := [{ source := "extract", target := "improve",
                condition := Option.none }],
    entry_node := "extract",
    loops := [("improve",
      { condition := { field := "a", operator := "eq", value := PyVal.int 2 },
        max_iterations := 3 })] }

/-- A graph violating every validator invariant at once: unknown entry
node, unknown edge source, unknown edge target, unknown loop key. -/
def invalidGraph : GraphConfig :=
  { name := "bad", nodes := [{ name := "a", handler := "h" }],
    edges := [{ source := "a", target := "zz", condition := Option.none },
              { source := "qq", target := "a", condition := Option.none }],
    entry_node := "nope",
    loops := [("ww", { condition := condMissingEqNone, max_iterations := 1 })] }

/-! ## Lemmas on the dictionary model -/

section PmLemmas

variable {κ ν : Type} [BEq κ] [LawfulBEq κ]

theorem pmFind?_eq_none (d : PyMapList κ ν) (k : κ)
    (h : ∀ p ∈ d, p.1 ≠ k) : pmFind? d k = Option.none := by
  unfold pmFind?
  rw [List.find?_eq_none.mpr]
  · rfl
  · intro p hp
    simp only [Bool.not_eq_true, beq_eq_false_iff_ne]
    exact h p hp

theorem pmFind?_set_self (d : PyMapList κ ν) (k : κ) (v : ν) :
    pmFind? (pmSet d k v) k = Option.some v := by
  unfold pmSet pmFind?
  split
  case isTrue hany =>
    rw [List.find?_map]
    have hpred : ((fun q : κ × ν => q.1 == k) ∘
        (fun p : κ × ν => if p.1 == k then (k, v) else p)) =
        (fun p : κ × ν => p.1 == k) := by
      funext p
      by_cases hp : (p.1 == k) = true <;> simp [hp]
    rw [hpred]
    obtain ⟨q, hq⟩ := Option.isSome_iff_exists.mp
      (List.find?_isSome.mpr (List.any_eq_true.mp hany))
    rw [hq]
    have hq2 : (q.1 == k) = true := by simpa using List.find?_some hq
    simp [hq2]
  case isFalse hany =>
    rw [List.find?_append]
    have h1 : d.find? (fun p => p.1 == k) = Option.none := by
      rw [List.find?_eq_none]
      intro p hp
      intro hc
      exact hany (List.any_eq_true.mpr ⟨p, hp, hc⟩)
    simp [h1]

theorem pmFind?_set_ne (d : PyMapList κ ν) (k k' : κ) (v : ν)
    (hne : k ≠ k') : pmFind? (pmSet d k v) k' = pmFind? d k' := by
  unfold pmSet pmFind?
  split
  case isTrue hany =>
    rw [List.find?_map]
    have hkk : (k == k') = false := beq_eq_false_iff_ne.mpr hne
    have hpred : ((fun q : κ × ν => q.1 == k') ∘
        (fun p : κ × ν => if p.1 == k then (k, v) else p)) =
        (fun p : κ × ν => p.1 == k') := by
      funext p
      by_cases hp : (p.1 == k) = true
      · have := eq_of_beq hp
        simp [hp, hkk, this]
      · simp [hp]
    rw [hpred]
    cases hfind : d.find? (fun p => p.1 == k') with
    | none => rfl
    | some q =>
      have hq : (q.1 == k') = true := by simpa using List.find?_some hfind
      have hqk : (q.1 == k) = false := by
        rw [beq_eq_false_iff_ne]
        intro hcon
        exact hne (hcon ▸ eq_of_beq hq)
      simp [hqk]
  case isFalse hany =>
    rw [List.find?_append]
    have h2 : List.find? (fun p : κ × ν => p.1 == k') [(k, v)] = Option.none := by
      simp [List.find?, beq_eq_false_iff_ne.mpr hne]
    rw [h2, Option.or_none]

theorem pmFind?_update (d u : PyMapList κ ν)
    (hu : (u.map Prod.fst).Nodup) (k : κ) :
    pmFind? (pmUpdate d u) k = (pmFind? u k).or (pmFind? d k) := by
  induction u generalizing d with
  | nil => simp [pmUpdate, pmFind?, List.find?]
  | cons p u ih =>
    rw [List.map_cons, List.nodup_cons] at hu
    obtain ⟨hp1, hnodup⟩ := hu
    have hstep : pmUpdate d (p :: u) = pmUpdate (pmSet d p.1 p.2) u := rfl
    rw [hstep, ih _ hnodup]
    by_cases hk : p.1 = k
    · subst hk
      have h1 : pmFind? u p.1 = Option.none := by
        apply pmFind?_eq_none
        intro q hq hcon
        exact hp1 (hcon ▸ List.mem_map_of_mem Prod.fst hq)
      have h2 : pmFind? (p :: u) p.1 = Option.some p.2 := by
        simp [pmFind?, List.find?]
      rw [h1, h2, pmFind?_set_self, Option.none_or]
      rfl
    · have h3 : pmFind? (p :: u) k = pmFind? u k := by
        simp [pmFind?, List.find?, beq_eq_false_iff_ne.mpr hk]
      rw [h3, pmFind?_set_ne _ _ _ _ hk]

end PmLemmas

/-! ## C3: the condition evaluator is pure and total -/

/-- C3: the condition evaluator is pure and total: for every condition
and state it returns a boolean (it is a total Lean function into
`Bool`) and never raises; a field missing from the state is treated as
the absence value `None` for the comparison, an operator outside the
supported six yields `false`, and an ordering comparison that raises a
type error (modelled by `pyCmp` returning `Option.none`) yields
`false`. -/
theorem C3_condition_evaluator_total :
    (∀ (c : ConditionConfig) (s : PyDict), dictLookup s c.field = Option.none →
      evaluateCondition c s = applyOp c.operator PyVal.none c.value) ∧
    (∀ (c : ConditionConfig) (s : PyDict),
      c.operator ≠ "eq" → c.operator ≠ "ne" → c.operator ≠ "gt" →
      c.operator ≠ "lt" → c.operator ≠ "gte" → c.operator ≠ "lte" →
      evaluateCondition c s = false) ∧
    (∀ (c : ConditionConfig) (s : PyDict),
      (c.operator = "gt" ∨ c.operator = "lt" ∨ c.operator = "gte" ∨
       c.operator = "lte") →
      pyCmp (dictGet s c.field) c.value = Option.none →
      evaluateCondition c s = false) := by
  refine ⟨?_, ?_, ?_⟩
  · intro c s h
    unfold evaluateCondition dictGet pmGetD
    rw [show pmFind? s c.field = Option.none from h]
    rfl
  · intro c s h1 h2 h3 h4 h5 h6
    unfold evaluateCondition applyOp
    simp [beq_eq_false_iff_ne.mpr h1, beq_eq_false_iff_ne.mpr h2,
      beq_eq_false_iff_ne.mpr h3, beq_eq_false_iff_ne.mpr h4,
      beq_eq_false_iff_ne.mpr h5, beq_eq_false_iff_ne.mpr h6]
  · intro c s hop hcmp
    unfold evaluateCondition applyOp
    rcases hop with h | h | h | h <;> rw [h] <;> simp [hcmp]

/-- Witness for C3 at concrete inputs: an empty state misses the field
`x`, the operator `zz` is unsupported, and `gt` between a string state
value and a numeric threshold is a type-error comparison. -/
theorem C3_witness :
    evaluateCondition { field := "x", operator := "gt", value := PyVal.int 0 } [] =
      applyOp "gt" PyVal.none (PyVal.int 0) ∧
    evaluateCondition { field := "x", operator := "zz", value := PyVal.int 0 } [] = false ∧
    evaluateCondition { field := "x", operator := "gt", value := PyVal.int 0 }
      [("x", PyVal.str "s")] = false :=
  ⟨C3_condition_evaluator_total.1 _ _ rfl,
   C3_condition_evaluator_total.2.1 _ [] (by decide) (by decide) (by decide)
     (by decide) (by decide) (by decide),
   C3_condition_evaluator_total.2.2 _ _ (Or.inl rfl) rfl⟩

/-! ## C2: deterministic first-matching-edge selection -/

theorem edgeMatches_iff (current : String) (state : PyDict) (e : EdgeConfig) :
    (e.source == current &&
      (match e.condition with
       | Option.none => true
       | Option.some c => evaluateCondition c state)) = true ↔
    EdgeTakable current state e := by
  cases e with
  | mk src tgt cond =>
    cases cond with
    | none => simp [EdgeTakable]
    | some c => simp [EdgeTakable]

/-- C2: for every node, state and edge list, the engine advances to the
target of the first edge in declaration order whose source is the
current node and whose condition is absent or true against the state;
with no matching edge the lookup returns `None` (the run terminates);
and the choice is a deterministic function of the state and the edge
list. -/
theorem C2_edge_selection_first_match (current : String) (state : PyDict)
    (g : GraphConfig) :
    (∀ t : String, getNextNode current state g = Option.some t ↔
      ∃ i : Nat, ∃ hi : i < g.edges.length,
        EdgeTakable current state (g.edges.get ⟨i, hi⟩) ∧
        t = (g.edges.get ⟨i, hi⟩).target ∧
        ∀ j : Nat, ∀ hj : j < g.edges.length, j < i →
          ¬EdgeTakable current state (g.edges.get ⟨j, hj⟩)) ∧
    (getNextNode current state g = Option.none ↔
      ∀ e ∈ g.edges, ¬EdgeTakable current state e) ∧
    (∀ g' : GraphConfig, g.edges = g'.edges →
      getNextNode current state g = getNextNode current state g') := by
  refine ⟨?_, ?_, ?_⟩
  · intro t
    unfold getNextNode
    rw [Option.map_eq_some']
    constructor
    · rintro ⟨e, hfind, ht⟩
      rw [List.find?_eq_some_iff_getElem] at hfind
      obtain ⟨hpe, i, hi, hei, hprev⟩ := hfind
      refine ⟨i, hi, ?_, ?_, ?_⟩
      · rw [← edgeMatches_iff current state]
        rw [List.get_eq_getElem, hei]
        exact hpe
      · rw [List.get_eq_getElem, hei, ht]
      · intro j hj hji
        rw [← edgeMatches_iff current state]
        have := hprev j hji
        simp only [Bool.not_eq_true'] at this
        rw [List.get_eq_getElem]
        simp only [this]
        exact Bool.false_ne_true
    · rintro ⟨i, hi, htake, ht, hprev⟩
      refine ⟨g.edges.get ⟨i, hi⟩, ?_, ?_⟩
      · rw [List.find?_eq_some_iff_getElem]
        refine ⟨(edgeMatches_iff current state _).mpr htake, i, hi, ?_, ?_⟩
        · rw [List.get_eq_getElem]
        · intro j hji
          have hj : j < g.edges.length := Nat.lt_trans hji hi
          have hne := hprev j hj hji
          rw [← edgeMatches_iff current state] at hne
          rw [List.get_eq_getElem] at hne
          rw [Bool.not_eq_true', Bool.eq_false_iff]
          exact hne
      · exact ht.symm
  · unfold getNextNode
    rw [Option.map_eq_none']
    rw [List.find?_eq_none]
    constructor
    · intro h e he
      rw [← edgeMatches_iff current state]
      simp [h e he]
    · intro h e he
      intro hc
      exact h e he ((edgeMatches_iff current state e).mp hc)
  · intro g' h
    unfold getNextNode
    rw [h]

/-- Witness for C2 at the spec's own example: edges
`A→B if x<5, A→C if x<10, A→D unconditional` with `x=3` route to `B`. -/
theorem C2_witness :
    getNextNode "A" [("x", PyVal.int 3)]
      { name := "branch",
        nodes := [{ name := "A", handler := "h" }, { name := "B", handler := "h" },
                  { name := "C", handler := "h" }, { name := "D", handler := "h" }],
        edges := [{ source := "A", target := "B",
                    condition := Option.some { field := "x", operator := "lt", value := PyVal.int 5 } },
                  { source := "A", target := "C",
                    condition := Option.some { field := "x", operator := "lt", value := PyVal.int 10 } },
                  { source := "A", target := "D", condition := Option.none }],
        entry_node := "A", loops := [] } = Option.some "B" :=
  ((C2_edge_selection_first_match "A" [("x", PyVal.int 3)] _).1 "B").mpr
    ⟨0, by decide, ⟨rfl, Or.inr ⟨_, rfl, by decide⟩⟩, rfl,
     fun j hj hji => absurd hji (Nat.not_lt_zero j)⟩

/-! ## C4: the validator rejects exactly the invariant violations and
reports all of them -/

theorem edgeErrors_eq_nil (names : List String) (edges : List EdgeConfig) :
    edgeErrors names edges = [] ↔
    ∀ e ∈ edges, e.source ∈ names ∧ e.target ∈ names := by
  induction edges with
  | nil => simp [edgeErrors]
  | cons e rest ih =>
    unfold edgeErrors
    rw [List.forall_mem_cons, ← ih]
    constructor
    · intro h
      rw [List.append_assoc, List.append_eq_nil] at h
      obtain ⟨ha, hbc⟩ := h
      rw [List.append_eq_nil] at hbc
      obtain ⟨hb, hc⟩ := hbc
      refine ⟨⟨?_, ?_⟩, hc⟩
      · by_cases hcn : names.contains e.source = true
        · exact List.elem_iff.mp hcn
        · rw [if_neg hcn] at ha
          cases ha
      · by_cases hcn : names.contains e.target = true
        · exact List.elem_iff.mp hcn
        · rw [if_neg hcn] at hb
          cases hb
    · rintro ⟨⟨hs, ht⟩, hrest⟩
      rw [if_pos (List.elem_iff.mpr hs), if_pos (List.elem_iff.mpr ht), hrest]
      rfl

theorem loopErrors_eq_nil (names : List String)
    (loops : List (String × LoopConfig)) :
    loopErrors names loops = [] ↔ ∀ p ∈ loops, p.1 ∈ names := by
  induction loops with
  | nil => simp [loopErrors]
  | cons p rest ih =>
    unfold loopErrors
    rw [List.forall_mem_cons, ← ih]
    constructor
    · intro h
      rw [List.append_eq_nil] at h
      obtain ⟨ha, hb⟩ := h
      refine ⟨?_, hb⟩
      by_cases hcn : names.contains p.1 = true
      · exact List.elem_iff.mp hcn
      · rw [if_neg hcn] at ha
        cases ha
    · rintro ⟨hp, hrest⟩
      rw [if_pos (List.elem_iff.mpr hp), hrest]
      rfl

theorem edgeSourceMsg_mem (names : List String) (edges : List EdgeConfig)
    (e : EdgeConfig) (he : e ∈ edges) (hs : e.source ∉ names) :
    edgeSourceMsg e.source ∈ edgeErrors names edges := by
  induction edges with
  | nil => cases he
  | cons e' rest ih =>
    rcases List.mem_cons.mp he with rfl | hmem
    · unfold edgeErrors
      apply List.mem_append_left
      apply List.mem_append_left
      rw [if_neg (by simpa using hs)]
      exact List.mem_singleton_self _
    · unfold edgeErrors
      rw [List.append_assoc]
      exact List.mem_append_right _ (List.mem_append_right _ (ih hmem))

theorem edgeTargetMsg_mem (names : List String) (edges : List EdgeConfig)
    (e : EdgeConfig) (he : e ∈ edges) (ht : e.target ∉ names) :
    edgeTargetMsg e.target ∈ edgeErrors names edges := by
  induction edges with
  | nil => cases he
  | cons e' rest ih =>
    rcases List.mem_cons.mp he with rfl | hmem
    · unfold edgeErrors
      apply List.mem_append_left
      apply List.mem_append_right
      rw [if_neg (by simpa using ht)]
      exact List.mem_singleton_self _
    · unfold edgeErrors
      rw [List.append_assoc]
      exact List.mem_append_right _ (List.mem_append_right _ (ih hmem))

theorem loopMsg_mem (names : List String) (loops : List (String × LoopConfig))
    (p : String × LoopConfig) (hp : p ∈ loops) (hn : p.1 ∉ names) :
    loopMsg p.1 ∈ loopErrors names loops := by
  induction loops with
  | nil => cases hp
  | cons p' rest ih =>
    rcases List.mem_cons.mp hp with rfl | hmem
    · unfold loopErrors
      apply List.mem_append_left
      rw [if_neg (by simpa using hn)]
      exact List.mem_singleton_self _
    · unfold loopErrors
      exact List.mem_append_right _ (ih hmem)

/-- C4: validation accepts (empty error list, hence no exception) if
and only if the entry node, every edge source and target, and every
loop key are node names; and when it rejects, the error list reports
every violation at once — the entry-node violation and each bad edge
endpoint and each bad loop key contribute their message.  The
validator is a pure function of the graph (it is a Lean function), so
it has no side effects. -/
theorem C4_validator_complete (g : GraphConfig) :
    (validateGraph g = [] ↔
      (g.entry_node ∈ nodeNames g ∧
       (∀ e ∈ g.edges, e.source ∈ nodeNames g ∧ e.target ∈ nodeNames g) ∧
       (∀ p ∈ g.loops, p.1 ∈ nodeNames g))) ∧
    (g.entry_node ∉ nodeNames g → entryMsg g.entry_node ∈ validateGraph g) ∧
    (∀ e ∈ g.edges, e.source ∉ nodeNames g →
      edgeSourceMsg e.source ∈ validateGraph g) ∧
    (∀ e ∈ g.edges, e.target ∉ nodeNames g →
      edgeTargetMsg e.target ∈ validateGraph g) ∧
    (∀ p ∈ g.loops, p.1 ∉ nodeNames g → loopMsg p.1 ∈ validateGraph g) := by
  refine ⟨?_, ?_, ?_, ?_, ?_⟩
  · unfold validateGraph
    rw [List.append_assoc, List.append_eq_nil, List.append_eq_nil]
    rw [edgeErrors_eq_nil, loopErrors_eq_nil]
    constructor
    · rintro ⟨ha, hb, hc⟩
      refine ⟨?_, hb, hc⟩
      by_cases hcn : (nodeNames g).contains g.entry_node = true
      · exact List.elem_iff.mp hcn
      · rw [if_neg hcn] at ha
        cases ha
    · rintro ⟨ha, hb, hc⟩
      exact ⟨by rw [if_pos (List.elem_iff.mpr ha)], hb, hc⟩
  · intro h
    have hform : validateGraph g =
        (if (nodeNames g).contains g.entry_node = true then []
         else [entryMsg g.entry_node]) ++
        edgeErrors (nodeNames g) g.edges ++
        loopErrors (nodeNames g) g.loops := rfl
    rw [hform, if_neg (by simpa using h)]
    exact List.mem_append_left _
      (List.mem_append_left _ (List.mem_singleton_self _))
  · intro e he hs
    have hform : validateGraph g =
        (if (nodeNames g).contains g.entry_node = true then []
         else [entryMsg g.entry_node]) ++
        edgeErrors (nodeNames g) g.edges ++
        loopErrors (nodeNames g) g.loops := rfl
    rw [hform]
    exact List.mem_append_left _
      (List.mem_append_right _ (edgeSourceMsg_mem (nodeNames g) g.edges e he hs))
  · intro e he ht
    have hform : validateGraph g =
        (if (nodeNames g).contains g.entry_node = true then []
         else [entryMsg g.entry_node]) ++
        edgeErrors (nodeNames g) g.edges ++
        loopErrors (nodeNames g) g.loops := rfl
    rw [hform]
    exact List.mem_append_left _
      (List.mem_append_right _ (edgeTargetMsg_mem (nodeNames g) g.edges e he ht))
  · intro p hp hn
    have hform : validateGraph g =
        (if (nodeNames g).contains g.entry_node = true then []
         else [entryMsg g.entry_node]) ++
        edgeErrors (nodeNames g) g.edges ++
        loopErrors (nodeNames g) g.loops := rfl
    rw [hform]
    exact List.mem_append_right _ (loopMsg_mem (nodeNames g) g.loops p hp hn)

/-! ## C7: a handler failure stops the run immediately -/

/-- C7: when node execution fails (in particular when the handler's
name is unregistered or the handler raises — the last two conjuncts
show both produce an `Except.error`), the run's status becomes
`failed`, traversal stops immediately (the loop returns at once, for
any remaining fuel, so no further node is executed), and the result
carries the state as of the point of failure (the stored state, not
rolled back), the trace accumulated before the failure, and an error
description; the failed attempt itself appends no trace entry (the
result's log is exactly the log accumulated before). -/
theorem C7_failure_stops_run (registry : Registry) (g : GraphConfig)
    (node : String) (counts : List (String × Nat)) (log : List ExecutionLog)
    (run : RunData) (e : String)
    (herr : executeNode registry g node run = Except.error e) :
    execStep registry g node counts log run =
      StepResult.done
        { run_id := run.run_id, graph_id := run.graph_id, status := "failed",
          final_state := run.current_state, execution_log := log,
          error := Option.some e } (completeRun run "failed") ∧
    (∀ fuel : Nat,
      execLoop registry g (fuel + 1) (Option.some node) counts log run =
        Option.some
          ({ run_id := run.run_id, graph_id := run.graph_id, status := "failed",
             final_state := run.current_state, execution_log := log,
             error := Option.some e }, completeRun run "failed")) ∧
    (∀ nc : NodeConfig,
      g.nodes.find? (fun n => n.name == node) = Option.some nc →
      registry nc.handler = Option.none →
      executeNode registry g node run =
        Except.error (toolNotFoundMsg nc.handler)) ∧
    (∀ (nc : NodeConfig) (h : Handler) (msg : String),
      g.nodes.find? (fun n => n.name == node) = Option.some nc →
      registry nc.handler = Option.some h →
      h (getState run) = HandlerResult.raises msg →
      executeNode registry g node run =
        Except.error (nodeExecutionMsg node msg)) := by
  have hstep : execStep registry g node counts log run =
      StepResult.done
        { run_id := run.run_id, graph_id := run.graph_id, status := "failed",
          final_state := run.current_state, execution_log := log,
          error := Option.some e } (completeRun run "failed") := by
    unfold execStep
    simp only [herr]
    rfl
  refine ⟨hstep, ?_, ?_, ?_⟩
  · intro fuel
    unfold execLoop
    simp only [hstep]
  · intro nc hfind hnone
    unfold executeNode
    simp only [hfind, hnone]
  · intro nc h msg hfind hsome hraise
    unfold executeNode
    simp only [hfind, hsome, hraise]

/-- Witness for C7: a one-node graph whose handler raises `boom`; the
step fails the run with the wrapped message, an empty trace, and the
initial state. -/
theorem C7_witness :
    execStep (oneToolReg "h" raisingHandler) soloGraph "a" [] []
      (initRun "r" "g" [("k", PyVal.int 7)]) =
      StepResult.done
        { run_id := "r", graph_id := "g", status := "failed",
          final_state := [("k", PyVal.int 7)], execution_log := [],
          error := Option.some (nodeExecutionMsg "a" "boom") }
        (completeRun (initRun "r" "g" [("k", PyVal.int 7)]) "failed") ∧
    execLoop (oneToolReg "h" raisingHandler) soloGraph 1 (Option.some "a") [] []
      (initRun "r" "g" [("k", PyVal.int 7)]) =
      Option.some
        ({ run_id := "r", graph_id := "g", status := "failed",
           final_state := [("k", PyVal.int 7)], execution_log := [],
           error := Option.some (nodeExecutionMsg "a" "boom") },
         completeRun (initRun "r" "g" [("k", PyVal.int 7)]) "failed") :=
  ⟨(C7_failure_stops_run (oneToolReg "h" raisingHandler) soloGraph "a" [] []
      (initRun "r" "g" [("k", PyVal.int 7)]) (nodeExecutionMsg "a" "boom") rfl).1,
   (C7_failure_stops_run (oneToolReg "h" raisingHandler) soloGraph "a" [] []
      (initRun "r" "g" [("k", PyVal.int 7)]) (nodeExecutionMsg "a" "boom") rfl).2.1 0⟩

/-! ## Helper lemmas about node execution and stepping -/

theorem executeNode_ok_inv (registry : Registry) (g : GraphConfig)
    (node : String) (run : RunData) (entry : ExecutionLog) (run1 : RunData)
    (h : executeNode registry g node run = Except.ok (entry, run1)) :
    entry.status = "success" ∧ run1.execution_log = run.execution_log ∧
    run1.run_id = run.run_id ∧ run1.graph_id = run.graph_id := by
  unfold executeNode at h
  cases hfind : g.nodes.find? (fun n => n.name == node) with
  | none =>
    rw [hfind] at h
    exact Except.noConfusion h
  | some nc =>
    rw [hfind] at h
    simp only [] at h
    cases hreg : registry nc.handler with
    | none =>
      rw [hreg] at h
      exact Except.noConfusion h
    | some hd =>
      rw [hreg] at h
      simp only [] at h
      cases hret : hd (getState run) with
      | raises msg =>
        rw [hret] at h
        exact Except.noConfusion h
      | ok ret =>
        rw [hret] at h
        simp only [] at h
        cases ret with
        | dict u =>
          simp only [Except.ok.injEq, Prod.mk.injEq] at h
          obtain ⟨he, hr⟩ := h
          rw [← he, ← hr]
          exact ⟨rfl, rfl, rfl, rfl⟩
        | scalar v =>
          simp only [Except.ok.injEq, Prod.mk.injEq] at h
          obtain ⟨he, hr⟩ := h
          rw [← he, ← hr]
          exact ⟨rfl, rfl, rfl, rfl⟩

theorem execStep_run_log_preserved (registry : Registry) (g : GraphConfig)
    (node : String) (counts : List (String × Nat)) (log : List ExecutionLog)
    (run : RunData) :
    (∀ r rd, execStep registry g node counts log run = StepResult.done r rd →
      rd.execution_log = run.execution_log) ∧
    (∀ c2 counts2 log2 run2,
      execStep registry g node counts log run =
        StepResult.next c2 counts2 log2 run2 →
      run2.execution_log = run.execution_log) := by
  unfold execStep
  cases hexec : executeNode registry g node run with
  | error e =>
    constructor
    · intro r rd h
      simp only [StepResult.done.injEq] at h
      rw [← h.2]
      rfl
    · intro c2 counts2 log2 run2 h
      exact StepResult.noConfusion h
  | ok pr =>
    obtain ⟨entry, run1⟩ := pr
    have hlog := (executeNode_ok_inv registry g node run entry run1 hexec).2.1
    simp only []
    cases hloop : lookupLoop g.loops node with
    | none =>
      constructor
      · intro r rd h
        exact StepResult.noConfusion h
      · intro c2 counts2 log2 run2 h
        simp only [StepResult.next.injEq] at h
        rw [← h.2.2.2]
        exact hlog
    | some lc =>
      simp only []
      by_cases hlim : lc.max_iterations < loopCount counts node + 1
      · rw [if_pos hlim]
        constructor
        · intro r rd h
          simp only [StepResult.done.injEq] at h
          rw [← h.2]
          exact hlog
        · intro c2 counts2 log2 run2 h
          exact StepResult.noConfusion h
      · rw [if_neg hlim]
        by_cases hcond : evaluateCondition lc.condition (getState run1) = true
        · rw [if_pos hcond]
          constructor
          · intro r rd h
            exact StepResult.noConfusion h
          · intro c2 counts2 log2 run2 h
            simp only [StepResult.next.injEq] at h
            rw [← h.2.2.2]
            exact hlog
        · rw [if_neg hcond]
          constructor
          · intro r rd h
            exact StepResult.noConfusion h
          · intro c2 counts2 log2 run2 h
            simp only [StepResult.next.injEq] at h
            rw [← h.2.2.2]
            exact hlog

theorem execLoop_run_log_preserved (registry : Registry) (g : GraphConfig) :
    ∀ (fuel : Nat) (cur : Option String) (counts : List (String × Nat))
      (log : List ExecutionLog) (run : RunData) (r : ExecutionResult)
      (rd : RunData),
      execLoop registry g fuel cur counts log run = Option.some (r, rd) →
      rd.execution_log = run.execution_log := by
  intro fuel
  induction fuel with
  | zero =>
    intro cur counts log run r rd h
    exact Option.noConfusion h
  | succ fuel ih =>
    intro cur counts log run r rd h
    cases cur with
    | none =>
      simp only [execLoop, Option.some.injEq, Prod.mk.injEq] at h
      rw [← h.2]
      rfl
    | some node =>
      simp only [execLoop] at h
      cases hstep : execStep registry g node counts log run with
      | done r2 rd2 =>
        rw [hstep] at h
        simp only [Option.some.injEq, Prod.mk.injEq] at h
        rw [← h.2]
        exact (execStep_run_log_preserved registry g node counts log run).1
          r2 rd2 hstep
      | next c2 counts2 log2 run2 =>
        rw [hstep] at h
        rw [ih c2 counts2 log2 run2 r rd h]
        exact (execStep_run_log_preserved registry g node counts log run).2
          c2 counts2 log2 run2 hstep

/-! ## C9: the persisted run record's log stays empty -/

/-- C9: the persisted run record's `execution_log` remains the empty
list throughout execution and after finalization: run creation stores
an empty log, `complete_run` never writes a log entry, and for any
execution outcome, the stored run record still carries an empty log
(the trace lives only in the locally accumulated list returned inside
the `ExecutionResult`). -/
theorem C9_stored_log_stays_empty (registry : Registry) (g : GraphConfig)
    (run_id graph_id : String) (s0 : PyDict) :
    (initRun run_id graph_id s0).execution_log = [] ∧
    (∀ (run : RunData) (st : String),
      (completeRun run st).execution_log = run.execution_log) ∧
    (∀ (fuel : Nat) (r : ExecutionResult) (rd : RunData),
      executeGraph registry g run_id graph_id s0 fuel = Option.some (r, rd) →
      rd.execution_log = []) := by
  refine ⟨rfl, fun run st => rfl, ?_⟩
  intro fuel r rd h
  unfold executeGraph at h
  exact execLoop_run_log_preserved registry g fuel (Option.some g.entry_node)
    [] [] (initRun run_id graph_id s0) r rd h

/-- Witness for C9: a complete one-node run; the returned result holds
one trace record while the stored run record's log is empty. -/
theorem C9_witness :
    executeGraph (oneToolReg "h" constNoneHandler) soloGraph "r" "g" [] 3 =
      Option.some
        ({ run_id := "r", graph_id := "g", status := "completed",
           final_state := [],
           execution_log := [{ node := "a", state_before := [],
                               state_after := [], status := "success" }],
           error := Option.none },
         { run_id := "r", graph_id := "g", current_state := [],
           status := "completed", execution_log := [] }) ∧
    ({ run_id := "r", graph_id := "g", current_state := [],
       status := "completed", execution_log := [] } : RunData).execution_log = [] :=
  ⟨rfl,
   (C9_stored_log_stays_empty (oneToolReg "h" constNoneHandler) soloGraph
      "r" "g" []).2.2 3
     { run_id := "r", graph_id := "g", status := "completed", final_state := [],
       execution_log := [{ node := "a", state_before := [], state_after := [],
                           status := "success" }], error := Option.none }
     { run_id := "r", graph_id := "g", current_state := [],
       status := "completed", execution_log := [] } rfl⟩

/-! ## C10: every trace entry has status `success` -/

theorem execStep_log_success (registry : Registry) (g : GraphConfig)
    (node : String) (counts : List (String × Nat)) (log : List ExecutionLog)
    (run : RunData) (hlog : ∀ x ∈ log, x.status = "success") :
    (∀ r rd, execStep registry g node counts log run = StepResult.done r rd →
      ∀ x ∈ r.execution_log, x.status = "success") ∧
    (∀ c2 counts2 log2 run2,
      execStep registry g node counts log run =
        StepResult.next c2 counts2 log2 run2 →
      ∀ x ∈ log2, x.status = "success") := by
  unfold execStep
  cases hexec : executeNode registry g node run with
  | error e =>
    constructor
    · intro r rd h
      simp only [StepResult.done.injEq] at h
      rw [← h.1]
      exact hlog
    · intro c2 counts2 log2 run2 h
      exact StepResult.noConfusion h
  | ok pr =>
    obtain ⟨entry, run1⟩ := pr
    have hst := (executeNode_ok_inv registry g node run entry run1 hexec).1
    have happ : ∀ x ∈ log ++ [entry], x.status = "success" := by
      intro x hx
      rcases List.mem_append.mp hx with hx | hx
      · exact hlog x hx
      · rw [List.mem_singleton.mp hx]
        exact hst
    simp only []
    cases hloop : lookupLoop g.loops node with
    | none =>
      constructor
      · intro r rd h
        exact StepResult.noConfusion h
      · intro c2 counts2 log2 run2 h
        simp only [StepResult.next.injEq] at h
        rw [← h.2.2.1]
        exact happ
    | some lc =>
      simp only []
      by_cases hlim : lc.max_iterations < loopCount counts node + 1
      · rw [if_pos hlim]
        constructor
        · intro r rd h
          simp only [StepResult.done.injEq] at h
          rw [← h.1]
          exact happ
        · intro c2 counts2 log2 run2 h
          exact StepResult.noConfusion h
      · rw [if_neg hlim]
        by_cases hcond : evaluateCondition lc.condition (getState run1) = true
        · rw [if_pos hcond]
          constructor
          · intro r rd h
            exact StepResult.noConfusion h
          · intro c2 counts2 log2 run2 h
            simp only [StepResult.next.injEq] at h
            rw [← h.2.2.1]
            exact happ
        · rw [if_neg hcond]
          constructor
          · intro r rd h
            exact StepResult.noConfusion h
          · intro c2 counts2 log2 run2 h
            simp only [StepResult.next.injEq] at h
            rw [← h.2.2.1]
            exact happ

theorem execLoop_log_success (registry : Registry) (g : GraphConfig) :
    ∀ (fuel : Nat) (cur : Option String) (counts : List (String × Nat))
      (log : List ExecutionLog) (run : RunData) (r : ExecutionResult)
      (rd : RunData),
      (∀ x ∈ log, x.status = "success") →
      execLoop registry g fuel cur counts log run = Option.some (r, rd) →
      ∀ x ∈ r.execution_log, x.status = "success" := by
  intro fuel
  induction fuel with
  | zero =>
    intro cur counts log run r rd hlog h
    exact Option.noConfusion h
  | succ fuel ih =>
    intro cur counts log run r rd hlog h
    cases cur with
    | none =>
      simp only [execLoop, Option.some.injEq, Prod.mk.injEq] at h
      rw [← h.1]
      exact hlog
    | some node =>
      simp only [execLoop] at h
      cases hstep : execStep registry g node counts log run with
      | done r2 rd2 =>
        rw [hstep] at h
        simp only [Option.some.injEq, Prod.mk.injEq] at h
        rw [← h.1]
        exact (execStep_log_success registry g node counts log run hlog).1
          r2 rd2 hstep
      | next c2 counts2 log2 run2 =>
        rw [hstep] at h
        exact ih c2 counts2 log2 run2 r rd
          ((execStep_log_success registry g node counts log run hlog).2
            c2 counts2 log2 run2 hstep) h

/-- C10: every trace entry ever produced has status `success` — a node
execution whose handler raises yields an `Except.error` and hence no
trace entry at all, so no entry with the `error` outcome can appear in
any execution result. -/
theorem C10_trace_entries_always_success (registry : Registry)
    (g : GraphConfig) (run_id graph_id : String) (s0 : PyDict) :
    (∀ (node : String) (run : RunData) (entry : ExecutionLog) (run1 : RunData),
      executeNode registry g node run = Except.ok (entry, run1) →
      entry.status = "success") ∧
    (∀ (fuel : Nat) (r : ExecutionResult) (rd : RunData),
      executeGraph registry g run_id graph_id s0 fuel = Option.some (r, rd) →
      ∀ x ∈ r.execution_log, x.status = "success") := by
  constructor
  · intro node run entry run1 h
    exact (executeNode_ok_inv registry g node run entry run1 h).1
  · intro fuel r rd h
    unfold executeGraph at h
    exact execLoop_log_success registry g fuel (Option.some g.entry_node) [] []
      (initRun run_id graph_id s0) r rd (fun x hx => absurd hx (List.not_mem_nil x)) h

/-- Witness for C10: in the concrete one-node run, the single produced
trace entry has status `success`. -/
theorem C10_witness :
    executeGraph (oneToolReg "h" constNoneHandler) soloGraph "r" "g" [] 3 =
      Option.some
        ({ run_id := "r", graph_id := "g", status := "completed",
           final_state := [],
           execution_log := [{ node := "a", state_before := [],
                               state_after := [], status := "success" }],
           error := Option.none },
         { run_id := "r", graph_id := "g", current_state := [],
           status := "completed", execution_log := [] }) ∧
    ({ node := "a", state_before := [], state_after := [],
       status := "success" } : ExecutionLog).status = "success" :=
  ⟨rfl,
   (C10_trace_entries_always_success (oneToolReg "h" constNoneHandler)
      soloGraph "r" "g" []).2 3
     { run_id := "r", graph_id := "g", status := "completed", final_state := [],
       execution_log := [{ node := "a", state_before := [], state_after := [],
                           status := "success" }], error := Option.none }
     { run_id := "r", graph_id := "g", current_state := [],
       status := "completed", execution_log := [] } rfl
     { node := "a", state_before := [], state_after := [], status := "success" }
     (List.mem_singleton_self _)⟩

/-! ## C6: the loop-policy check precedes edge evaluation -/

/-- C6: after a node with a LoopPolicy executes successfully and the
incremented loop count is within the ceiling, the engine evaluates the
policy's condition first; when it is true, the next current node is the
same node again and no edge is consulted for this iteration — the step
outcome is identical for every possible edge list, so a
self-referential edge is dead code while the loop condition holds. -/
theorem C6_loop_policy_precedes_edges (registry : Registry) (g : GraphConfig)
    (node : String) (counts : List (String × Nat)) (log : List ExecutionLog)
    (run : RunData) (entry : ExecutionLog) (run1 : RunData) (lc : LoopConfig)
    (hexec : executeNode registry g node run = Except.ok (entry, run1))
    (hloop : lookupLoop g.loops node = Option.some lc)
    (hcount : loopCount counts node + 1 ≤ lc.max_iterations)
    (hcond : evaluateCondition lc.condition (getState run1) = true) :
    execStep registry g node counts log run =
      StepResult.next (Option.some node)
        (setLoopCount counts node (loopCount counts node + 1))
        (log ++ [entry]) run1 ∧
    ∀ edges2 : List EdgeConfig,
      execStep registry { g with edges := edges2 } node counts log run =
        StepResult.next (Option.some node)
          (setLoopCount counts node (loopCount counts node + 1))
          (log ++ [entry]) run1 := by
  constructor
  · unfold execStep
    simp only [hexec, hloop]
    rw [if_neg (Nat.not_lt.mpr hcount), if_pos hcond]
  · intro edges2
    have hexec2 : executeNode registry { g with edges := edges2 } node run =
        Except.ok (entry, run1) := hexec
    have hloop2 : lookupLoop ({ g with edges := edges2 } : GraphConfig).loops
        node = Option.some lc := hloop
    unfold execStep
    simp only [hexec2, hloop2]
    rw [if_neg (Nat.not_lt.mpr hcount), if_pos hcond]

/-- Witness for C6: a looping node with ceiling 2 and a true loop
condition re-executes itself, and the step outcome is the same even
when a self-referential edge is added to the graph. -/
theorem C6_witness :
    execStep (oneToolReg "h" constNoneHandler)
      (loopGraph "n" "h" condMissingEqNone 2) "n" [] []
      (initRun "r" "g" []) =
      StepResult.next (Option.some "n")
        (setLoopCount [] "n" (loopCount [] "n" + 1))
        ([] ++ [{ node := "n", state_before := [], state_after := [],
                  status := "success" }]) (initRun "r" "g" []) ∧
    execStep (oneToolReg "h" constNoneHandler)
      { loopGraph "n" "h" condMissingEqNone 2 with
        edges := [{ source := "n", target := "n", condition := Option.none }] }
      "n" [] [] (initRun "r" "g" []) =
      StepResult.next (Option.some "n")
        (setLoopCount [] "n" (loopCount [] "n" + 1))
        ([] ++ [{ node := "n", state_before := [], state_after := [],
                  status := "success" }]) (initRun "r" "g" []) :=
  ⟨(C6_loop_policy_precedes_edges (oneToolReg "h" constNoneHandler)
      (loopGraph "n" "h" condMissingEqNone 2) "n" [] [] (initRun "r" "g" [])
      { node := "n", state_before := [], state_after := [], status := "success" }
      (initRun "r" "g" []) { condition := condMissingEqNone, max_iterations := 2 }
      rfl rfl (by decide) rfl).1,
   (C6_loop_policy_precedes_edges (oneToolReg "h" constNoneHandler)
      (loopGraph "n" "h" condMissingEqNone 2) "n" [] [] (initRun "r" "g" [])
      { node := "n", state_before := [], state_after := [], status := "success" }
      (initRun "r" "g" []) { condition := condMissingEqNone, max_iterations := 2 }
      rfl rfl (by decide) rfl).2
     [{ source := "n", target := "n", condition := Option.none }]⟩

/-! ## C1: loop-limit enforcement count -/

/-- C1 counterexample: a one-node graph whose node has a LoopPolicy with
`max_iterations = 3` and a loop condition that evaluates true against
the current state at every iteration (the handler returns `None`, so
the state stays `{}` and the condition — missing field `eq None` —
is true throughout; the third conjunct exhibits this).  The run does
fail with the LoopLimitExceeded error, but the trace contains exactly
**4** records for the looping node, not 3: the limit check runs after
the count is incremented past the ceiling, i.e. after a fourth
execution has already happened and been logged. -/
theorem C1_counterexample :
    executeGraph (oneToolReg "h" constNoneHandler)
      (loopGraph "n" "h" condMissingEqNone 3) "r" "g" [] 10 =
      Option.some
        ({ run_id := "r", graph_id := "g", status := "failed",
           final_state := [],
           execution_log := List.replicate 4
             { node := "n", state_before := [], state_after := [],
               status := "success" },
           error := Option.some (loopLimitMsg "n" 3) },
         { run_id := "r", graph_id := "g", current_state := [],
           status := "failed", execution_log := [] }) ∧
    ((List.replicate 4
        { node := "n", state_before := [], state_after := [],
          status := "success" } : List ExecutionLog).filter
      (fun x => x.node == "n")).length = 4 ∧
    evaluateCondition condMissingEqNone [] = true ∧
    (4 : Nat) ≠ 3 :=
  ⟨rfl, rfl, rfl, by decide⟩

theorem loopTrace_length (h : Handler) (node : String) :
    ∀ (j : Nat) (s : PyDict), (loopTrace h node s j).length = j := by
  intro j
  induction j with
  | zero => intro s; rfl
  | succ j ih =>
    intro s
    show (loopTrace h node s (j + 1)).length = j + 1
    rw [show loopTrace h node s (j + 1) =
      { node := node, state_before := s, state_after := handlerStep h s,
        status := "success" } :: loopTrace h node (handlerStep h s) j from rfl]
    rw [List.length_cons, ih]

theorem loopTrace_mem (h : Handler) (node : String) :
    ∀ (j : Nat) (s : PyDict), ∀ e ∈ loopTrace h node s j,
      e.node = node ∧ e.status = "success" := by
  intro j
  induction j with
  | zero => intro s e he; cases he
  | succ j ih =>
    intro s e he
    rw [show loopTrace h node s (j + 1) =
      { node := node, state_before := s, state_after := handlerStep h s,
        status := "success" } :: loopTrace h node (handlerStep h s) j from rfl]
      at he
    rcases List.mem_cons.mp he with rfl | hmem
    · exact ⟨rfl, rfl⟩
    · exact ih (handlerStep h s) e hmem

theorem loop_overrun_general (registry : Registry) (g : GraphConfig)
    (node : String) (nc : NodeConfig) (h : Handler) (lc : LoopConfig)
    (hfind : g.nodes.find? (fun n => n.name == node) = Option.some nc)
    (hreg : registry nc.handler = Option.some h)
    (hok : ∀ s, ∃ r, h s = HandlerResult.ok r)
    (hloop : lookupLoop g.loops node = Option.some lc) :
    ∀ (j : Nat) (counts : List (String × Nat)) (log : List ExecutionLog)
      (run : RunData) (fuel : Nat),
      loopCount counts node + j = lc.max_iterations + 1 →
      1 ≤ j → j ≤ fuel →
      (∀ i : Nat, 1 ≤ i → i < j →
        evaluateCondition lc.condition (iterState h run.current_state i) = true) →
      execLoop registry g fuel (Option.some node) counts log run =
        Option.some
          ({ run_id := run.run_id, graph_id := run.graph_id, status := "failed",
             final_state := iterState h run.current_state j,
             execution_log := log ++ loopTrace h node run.current_state j,
             error := Option.some (loopLimitMsg node lc.max_iterations) },
           { run_id := run.run_id, graph_id := run.graph_id,
             current_state := iterState h run.current_state j,
             status := "failed", execution_log := run.execution_log }) := by
  have hexec : ∀ run2 : RunData, executeNode registry g node run2 =
      Except.ok ({ node := node, state_before := run2.current_state,
                   state_after := handlerStep h run2.current_state,
                   status := "success" },
                 { run2 with current_state := handlerStep h run2.current_state }) := by
    intro run2
    obtain ⟨r, hr⟩ := hok run2.current_state
    unfold executeNode
    simp only [hfind, hreg]
    unfold getState
    simp only [hr]
    cases r with
    | dict u =>
      simp only [handlerStep, hr]
      rfl
    | scalar v =>
      simp only [handlerStep, hr]
  intro j
  induction j with
  | zero =>
    intro counts log run fuel hc h1 hf hcond
    exact absurd h1 (by omega)
  | succ j ih =>
    intro counts log run fuel hc h1 hf hcond
    obtain ⟨fuel2, rfl⟩ : ∃ f2, fuel = f2 + 1 := ⟨fuel - 1, by omega⟩
    rcases Nat.eq_zero_or_pos j with hj0 | hjpos
    · subst hj0
      have hlim : lc.max_iterations < loopCount counts node + 1 := by omega
      have hstepv : execStep registry g node counts log run =
          StepResult.done
            { run_id := run.run_id, graph_id := run.graph_id,
              status := "failed",
              final_state := handlerStep h run.current_state,
              execution_log := log ++
                [{ node := node, state_before := run.current_state,
                   state_after := handlerStep h run.current_state,
                   status := "success" }],
              error := Option.some (loopLimitMsg node lc.max_iterations) }
            { run_id := run.run_id, graph_id := run.graph_id,
              current_state := handlerStep h run.current_state,
              status := "failed", execution_log := run.execution_log } := by
        unfold execStep
        simp only [hexec run, hloop]
        rw [if_pos hlim]
        rfl
      simp only [execLoop, hstepv]
      rfl
    · have hlim : ¬(lc.max_iterations < loopCount counts node + 1) := by omega
      have hcond2 : evaluateCondition lc.condition
          (getState { run with
            current_state := handlerStep h run.current_state }) = true :=
        hcond 1 (by omega) (by omega)
      have hstepv : execStep registry g node counts log run =
          StepResult.next (Option.some node)
            (setLoopCount counts node (loopCount counts node + 1))
            (log ++ [{ node := node, state_before := run.current_state,
                       state_after := handlerStep h run.current_state,
                       status := "success" }])
            { run with current_state := handlerStep h run.current_state } := by
        unfold execStep
        simp only [hexec run, hloop]
        rw [if_neg hlim, if_pos hcond2]
      have hcount2 : loopCount (setLoopCount counts node
          (loopCount counts node + 1)) node =
          loopCount counts node + 1 := by
        unfold loopCount setLoopCount pmGetD
        rw [pmFind?_set_self]
        rfl
      have hrec := ih (setLoopCount counts node (loopCount counts node + 1))
        (log ++ [{ node := node, state_before := run.current_state,
                   state_after := handlerStep h run.current_state,
                   status := "success" }])
        { run with current_state := handlerStep h run.current_state } fuel2
        (by rw [hcount2]; omega) hjpos (by omega)
        (fun i hi1 hij => hcond (i + 1) (by omega) (by omega))
      simp only [execLoop, hstepv]
      rw [hrec]
      rw [List.append_assoc]
      rfl

/-- C1 amended: whenever the engine stands at a node carrying a
LoopPolicy — reached arbitrarily mid-run, with any accumulated trace,
loop counts and state — whose handler is registered and always succeeds
(returning a mapping or not), and whose loop condition evaluates true
at each check performed while within the ceiling, the run fails with
the LoopLimitExceeded error after exactly
`max_iterations + 1 - currentCount` further executions of that node:
the trace gains exactly that many `success` records for the node, all
executed before the failure.  For a freshly reached looping node
(count 0) that is `max_iterations + 1` executions — with
`max_iterations = 3`, exactly 4 trace records, not 3 — because the
ceiling check runs only after the count has been incremented past the
limit, one execution too late. -/
theorem C1_amended_loop_overrun (registry : Registry) (g : GraphConfig)
    (node : String) (nc : NodeConfig) (h : Handler) (lc : LoopConfig)
    (hfind : g.nodes.find? (fun n => n.name == node) = Option.some nc)
    (hreg : registry nc.handler = Option.some h)
    (hok : ∀ s, ∃ r, h s = HandlerResult.ok r)
    (hloop : lookupLoop g.loops node = Option.some lc) :
    ∀ (j : Nat) (counts : List (String × Nat)) (log : List ExecutionLog)
      (run : RunData) (fuel : Nat),
      loopCount counts node + j = lc.max_iterations + 1 →
      1 ≤ j → j ≤ fuel →
      (∀ i : Nat, 1 ≤ i → i < j →
        evaluateCondition lc.condition (iterState h run.current_state i) = true) →
      execLoop registry g fuel (Option.some node) counts log run =
        Option.some
          ({ run_id := run.run_id, graph_id := run.graph_id, status := "failed",
             final_state := iterState h run.current_state j,
             execution_log := log ++ loopTrace h node run.current_state j,
             error := Option.some (loopLimitMsg node lc.max_iterations) },
           { run_id := run.run_id, graph_id := run.graph_id,
             current_state := iterState h run.current_state j,
             status := "failed", execution_log := run.execution_log }) ∧
      (loopTrace h node run.current_state j).length = j ∧
      (∀ e ∈ loopTrace h node run.current_state j,
        e.node = node ∧ e.status = "success") :=
  fun j counts log run fuel hc h1 hf hcond =>
    ⟨loop_overrun_general registry g node nc h lc hfind hreg hok hloop
       j counts log run fuel hc h1 hf hcond,
     loopTrace_length h node j run.current_state,
     loopTrace_mem h node j run.current_state⟩

/-- Witness for the amended C1 on the `code_review`-shaped graph: the
run starts at the entry node `extract`, flows along the edge to the
downstream looping node `improve` (ceiling 3), whose handler returns
the mapping `{a:2, b:3}`; the loop condition `a == 2` holds at every
check, and the run fails with the loop-limit error after exactly 4
executions of `improve` — the trace holds the `extract` record plus 4
`improve` records. -/
theorem C1_witness :
    execLoop
      (fun n => if n == "he" then Option.some constNoneHandler
                else if n == "h" then Option.some mergeHandler
                else Option.none)
      reviewGraph 10 (Option.some "extract") [] [] (initRun "r" "g" []) =
      Option.some
        ({ run_id := "r", graph_id := "g", status := "failed",
           final_state := [("a", PyVal.int 2), ("b", PyVal.int 3)],
           execution_log :=
             [{ node := "extract", state_before := [], state_after := [],
                status := "success" },
              { node := "improve", state_before := [],
                state_after := [("a", PyVal.int 2), ("b", PyVal.int 3)],
                status := "success" },
              { node := "improve",
                state_before := [("a", PyVal.int 2), ("b", PyVal.int 3)],
                state_after := [("a", PyVal.int 2), ("b", PyVal.int 3)],
                status := "success" },
              { node := "improve",
                state_before := [("a", PyVal.int 2), ("b", PyVal.int 3)],
                state_after := [("a", PyVal.int 2), ("b", PyVal.int 3)],
                status := "success" },
              { node := "improve",
                state_before := [("a", PyVal.int 2), ("b", PyVal.int 3)],
                state_after := [("a", PyVal.int 2), ("b", PyVal.int 3)],
                status := "success" }],
           error := Option.some (loopLimitMsg "improve" 3) },
         { run_id := "r", graph_id := "g",
           current_state := [("a", PyVal.int 2), ("b", PyVal.int 3)],
           status := "failed", execution_log := [] }) :=
  (C1_amended_loop_overrun
    (fun n => if n == "he" then Option.some constNoneHandler
              else if n == "h" then Option.some mergeHandler
              else Option.none)
    reviewGraph "improve" { name := "improve", handler := "h" } mergeHandler
    { condition := { field := "a", operator := "eq", value := PyVal.int 2 },
      max_iterations := 3 }
    rfl rfl (fun s => ⟨PyRet.dict [("a", PyVal.int 2), ("b", PyVal.int 3)], rfl⟩)
    rfl 4 []
    [{ node := "extract", state_before := [], state_after := [],
       status := "success" }]
    (initRun "r" "g" []) 9 (by decide) (by decide) (by decide)
    (by intro i h1 h2; interval_cases i <;> rfl)).1

/-! ## C8: state copies are shallow, so nested values stay aliased -/

theorem le_foldr_max (l : List Nat) (x : Nat) (hx : x ∈ l) :
    x ≤ l.foldr (fun a m => max a m) 0 := by
  induction l with
  | nil => cases hx
  | cons y l ih =>
    simp only [List.foldr]
    rcases List.mem_cons.mp hx with rfl | hmem
    · exact Nat.le_max_left _ _
    · exact Nat.le_trans (ih hmem) (Nat.le_max_right _ _)

theorem freshAddr_not_key (h : Heap) : ∀ p ∈ h, p.1 ≠ freshAddr h := by
  intro p hp
  unfold freshAddr
  have hle : p.1 ≤ (h.map (fun q => q.1)).foldr (fun x m => max x m) 0 :=
    le_foldr_max _ _ (List.mem_map_of_mem _ hp)
  omega

theorem pmFind?_append {κ ν : Type} [BEq κ] (d1 d2 : PyMapList κ ν) (k : κ) :
    pmFind? (d1 ++ d2) k = (pmFind? d1 k).or (pmFind? d2 k) := by
  unfold pmFind?
  rw [List.find?_append]
  cases List.find? (fun p => p.1 == k) d1 with
  | none => simp
  | some q => simp

theorem heapSet_lookup_ne (h : Heap) (a b : Nat) (k : String) (v : HVal)
    (hne : b ≠ a) : heapLookup (heapSet h a k v) b = heapLookup h b := by
  unfold heapSet heapLookup pmFind?
  rw [List.find?_map]
  have hpred : ((fun p : Nat × HDict => p.1 == b) ∘
      (fun p : Nat × HDict => if p.1 == a then (p.1, hdictSet p.2 k v) else p)) =
      (fun p : Nat × HDict => p.1 == b) := by
    funext p
    show ((if (p.1 == a) = true then (p.1, hdictSet p.2 k v) else p).1 == b) =
      (p.1 == b)
    by_cases hp : (p.1 == a) = true
    · rw [if_pos hp]
    · rw [if_neg hp]
  rw [hpred]
  cases hfind : List.find? (fun p : Nat × HDict => p.1 == b) h with
  | none => rfl
  | some q =>
    have hq : (q.1 == b) = true := by simpa using List.find?_some hfind
    have hqa : (q.1 == a) = false := by
      rw [beq_eq_false_iff_ne]
      intro hcon
      exact hne ((eq_of_beq hq) ▸ hcon)
    simp [beq_eq_false_iff_ne.mp hqa]

/-- C8 counterexample: the caller's `initial_state` is the dict object
at address 1, whose key `outer` references the nested dict object at
address 0 (holding `x = 1`).  `StateManager.initialize` copies it with
Python `dict.copy()` (`pyDictCopy`), producing the run's dict at the
fresh address 2 with the same entries — including the same reference to
object 0.  A handler that mutates the nested value `x` through the
run's state (in-place write on object 0) changes what the caller sees
through their own input object: reading `initial_state["outer"]["x"]`
now yields 2 instead of 1.  So the copies are not deep and nested
mutation is visible through the caller's object, refuting the claim. -/
theorem C8_counterexample :
    pyDictCopy [(0, [("x", HVal.hint 1)]), (1, [("outer", HVal.href 0)])] 1 =
      Option.some
        ([(0, [("x", HVal.hint 1)]), (1, [("outer", HVal.href 0)]),
          (2, [("outer", HVal.href 0)])], 2) ∧
    nestedRead [(0, [("x", HVal.hint 1)]), (1, [("outer", HVal.href 0)])]
      1 "outer" "x" = Option.some (HVal.hint 1) ∧
    nestedRead
      (heapSet [(0, [("x", HVal.hint 1)]), (1, [("outer", HVal.href 0)]),
                (2, [("outer", HVal.href 0)])] 0 "x" (HVal.hint 2))
      2 "outer" "x" = Option.some (HVal.hint 2) ∧
    nestedRead
      (heapSet [(0, [("x", HVal.hint 1)]), (1, [("outer", HVal.href 0)]),
                (2, [("outer", HVal.href 0)])] 0 "x" (HVal.hint 2))
      1 "outer" "x" = Option.some (HVal.hint 2) ∧
    Option.some (HVal.hint 2) ≠ Option.some (HVal.hint 1) :=
  ⟨rfl, rfl, rfl, rfl, by decide⟩

/-- C8 amended: the caller's `initial_state` object and every state
hand-off are copied with Python's shallow `dict.copy()`: the run gets a
fresh top-level dict object carrying the very same entries, so
top-level assignments on the copy are invisible through the original,
but references to nested mutable values remain shared — an in-place
mutation of a (distinct) nested object is seen identically through the
caller's object and through the run's copy. -/
theorem C8_amended_shallow_copy (h : Heap) (a : Nat) (d : HDict)
    (h2 : Heap) (a2 : Nat)
    (hload : heapLookup h a = Option.some d)
    (hcopy : pyDictCopy h a = Option.some (h2, a2)) :
    heapLookup h2 a2 = Option.some d ∧
    (∀ p ∈ h, p.1 ≠ a2) ∧
    heapLookup h2 a = Option.some d ∧
    (∀ (k : String) (v : HVal),
      heapLookup (heapSet h2 a2 k v) a = Option.some d) ∧
    (∀ (k : String) (b : Nat), hdictLookup d k = Option.some (HVal.href b) →
      b ≠ a → b ≠ a2 → ∀ (kb : String) (v : HVal),
        nestedRead (heapSet h2 b kb v) a k kb =
        nestedRead (heapSet h2 b kb v) a2 k kb) := by
  have hcopy2 : h2 = h ++ [(freshAddr h, d)] ∧ a2 = freshAddr h := by
    unfold pyDictCopy at hcopy
    rw [hload] at hcopy
    simp only [Option.some.injEq, Prod.mk.injEq] at hcopy
    exact ⟨hcopy.1.symm, hcopy.2.symm⟩
  obtain ⟨hh2, ha2⟩ := hcopy2
  subst hh2
  subst ha2
  have hfresh := freshAddr_not_key h
  have hane : a ≠ freshAddr h := by
    unfold heapLookup pmFind? at hload
    cases hfind : List.find? (fun p : Nat × HDict => p.1 == a) h with
    | none => rw [hfind] at hload; exact Option.noConfusion hload
    | some q =>
      have hq : (q.1 == a) = true := by simpa using List.find?_some hfind
      have hmem := List.mem_of_find?_eq_some hfind
      rw [← eq_of_beq hq]
      exact hfresh q hmem
  have h2at : heapLookup (h ++ [(freshAddr h, d)]) (freshAddr h) =
      Option.some d := by
    unfold heapLookup
    rw [pmFind?_append, pmFind?_eq_none h (freshAddr h) hfresh]
    simp [pmFind?]
  have h2a : heapLookup (h ++ [(freshAddr h, d)]) a = Option.some d := by
    unfold heapLookup
    rw [pmFind?_append]
    rw [show pmFind? h a = Option.some d from hload]
    rfl
  refine ⟨h2at, hfresh, h2a, ?_, ?_⟩
  · intro k v
    rw [heapSet_lookup_ne _ _ _ _ _ hane]
    exact h2a
  · intro k b hk hba hba2 kb v
    unfold nestedRead
    rw [heapSet_lookup_ne (h ++ [(freshAddr h, d)]) b a kb v (Ne.symm hba)]
    rw [heapSet_lookup_ne (h ++ [(freshAddr h, d)]) b (freshAddr h) kb v
      (Ne.symm hba2)]
    rw [h2at, h2a]

/-- Witness for the amended C8 at the concrete two-object heap: the
copy shares the nested reference, a top-level write on the copy leaves
the caller's object intact, and a nested in-place write is seen the
same way through both objects. -/
theorem C8_witness :
    heapLookup [(0, [("x", HVal.hint 1)]), (1, [("outer", HVal.href 0)]),
                (2, [("outer", HVal.href 0)])] 2 =
      Option.some [("outer", HVal.href 0)] ∧
    heapLookup
      (heapSet [(0, [("x", HVal.hint 1)]), (1, [("outer", HVal.href 0)]),
                (2, [("outer", HVal.href 0)])] 2 "outer" (HVal.hint 9)) 1 =
      Option.some [("outer", HVal.href 0)] ∧
    nestedRead
      (heapSet [(0, [("x", HVal.hint 1)]), (1, [("outer", HVal.href 0)]),
                (2, [("outer", HVal.href 0)])] 0 "x" (HVal.hint 2))
      1 "outer" "x" =
    nestedRead
      (heapSet [(0, [("x", HVal.hint 1)]), (1, [("outer", HVal.href 0)]),
                (2, [("outer", HVal.href 0)])] 0 "x" (HVal.hint 2))
      2 "outer" "x" :=
  ⟨(C8_amended_shallow_copy
      [(0, [("x", HVal.hint 1)]), (1, [("outer", HVal.href 0)])] 1
      [("outer", HVal.href 0)]
      [(0, [("x", HVal.hint 1)]), (1, [("outer", HVal.href 0)]),
       (2, [("outer", HVal.href 0)])] 2 rfl rfl).1,
   (C8_amended_shallow_copy
      [(0, [("x", HVal.hint 1)]), (1, [("outer", HVal.href 0)])] 1
      [("outer", HVal.href 0)]
      [(0, [("x", HVal.hint 1)]), (1, [("outer", HVal.href 0)]),
       (2, [("outer", HVal.href 0)])] 2 rfl rfl).2.2.2.1 "outer" (HVal.hint 9),
   (C8_amended_shallow_copy
      [(0, [("x", HVal.hint 1)]), (1, [("outer", HVal.href 0)])] 1
      [("outer", HVal.href 0)]
      [(0, [("x", HVal.hint 1)]), (1, [("outer", HVal.href 0)]),
       (2, [("outer", HVal.href 0)])] 2 rfl rfl).2.2.2.2 "outer" 0 rfl
     (by decide) (by decide) "x" (HVal.hint 2)⟩

/-! ## C5: shallow last-write-wins state merge -/

/-- C5: when a node execution succeeds and the handler's return value is
a mapping, it is merged into the run's current state by shallow key
overwrite with last-write-wins: for every key, the merged state holds
the update's value when the update contains the key and the previous
value otherwise (untouched keys persist); when the return value is not
a mapping, the run — its state included — is left entirely unchanged. -/
theorem C5_state_merge (registry : Registry) (g : GraphConfig) (node : String)
    (run : RunData) (nc : NodeConfig) (h : Handler)
    (hfind : g.nodes.find? (fun n => n.name == node) = Option.some nc)
    (hreg : registry nc.handler = Option.some h) :
    (∀ u : PyDict, h (getState run) = HandlerResult.ok (PyRet.dict u) →
      executeNode registry g node run =
        Except.ok ({ node := node, state_before := getState run,
                     state_after := getState (updateState run u),
                     status := "success" }, updateState run u) ∧
      (updateState run u).current_state = dictUpdate run.current_state u ∧
      ((u.map Prod.fst).Nodup → ∀ k : String,
        dictLookup (updateState run u).current_state k =
          (dictLookup u k).or (dictLookup run.current_state k))) ∧
    (∀ v : PyVal, h (getState run) = HandlerResult.ok (PyRet.scalar v) →
      executeNode registry g node run =
        Except.ok ({ node := node, state_before := getState run,
                     state_after := getState run,
                     status := "success" }, run)) := by
  constructor
  · intro u hu
    refine ⟨?_, rfl, ?_⟩
    · unfold executeNode
      simp only [hfind, hreg, hu]
    · intro hnd k
      exact pmFind?_update run.current_state u hnd k
  · intro v hv
    unfold executeNode
    simp only [hfind, hreg, hv]

/-- Witness for C5 at the spec's own example: state `{a:1, c:0}` merged
with handler result `{a:2, b:3}` yields `a=2, b=3, c=0`; and a
non-mapping (`None`) handler result leaves the run unchanged. -/
theorem C5_witness :
    dictLookup (dictUpdate [("a", PyVal.int 1), ("c", PyVal.int 0)]
      [("a", PyVal.int 2), ("b", PyVal.int 3)]) "a" = Option.some (PyVal.int 2) ∧
    dictLookup (dictUpdate [("a", PyVal.int 1), ("c", PyVal.int 0)]
      [("a", PyVal.int 2), ("b", PyVal.int 3)]) "b" = Option.some (PyVal.int 3) ∧
    dictLookup (dictUpdate [("a", PyVal.int 1), ("c", PyVal.int 0)]
      [("a", PyVal.int 2), ("b", PyVal.int 3)]) "c" = Option.some (PyVal.int 0) ∧
    executeNode (oneToolReg "h" constNoneHandler) soloGraph "a"
      (initRun "r" "g" [("a", PyVal.int 1)]) =
      Except.ok ({ node := "a", state_before := [("a", PyVal.int 1)],
                   state_after := [("a", PyVal.int 1)], status := "success" },
                 initRun "r" "g" [("a", PyVal.int 1)]) :=
  ⟨((C5_state_merge (oneToolReg "h" mergeHandler) soloGraph "a"
      (initRun "r" "g" [("a", PyVal.int 1), ("c", PyVal.int 0)])
      { name := "a", handler := "h" } mergeHandler rfl rfl).1
      [("a", PyVal.int 2), ("b", PyVal.int 3)] rfl).2.2 (by decide) "a" |>.trans rfl,
   ((C5_state_merge (oneToolReg "h" mergeHandler) soloGraph "a"
      (initRun "r" "g" [("a", PyVal.int 1), ("c", PyVal.int 0)])
      { name := "a", handler := "h" } mergeHandler rfl rfl).1
      [("a", PyVal.int 2), ("b", PyVal.int 3)] rfl).2.2 (by decide) "b" |>.trans rfl,
   ((C5_state_merge (oneToolReg "h" mergeHandler) soloGraph "a"
      (initRun "r" "g" [("a", PyVal.int 1), ("c", PyVal.int 0)])
      { name := "a", handler := "h" } mergeHandler rfl rfl).1
      [("a", PyVal.int 2), ("b", PyVal.int 3)] rfl).2.2 (by decide) "c" |>.trans rfl,
   (C5_state_merge (oneToolReg "h" constNoneHandler) soloGraph "a"
      (initRun "r" "g" [("a", PyVal.int 1)])
      { name := "a", handler := "h" } constNoneHandler rfl rfl).2 PyVal.none rfl⟩

/-- Witness for C4 at a concrete graph violating all four invariants:
all four messages are reported together. -/
theorem C4_witness :
    entryMsg "nope" ∈ validateGraph invalidGraph ∧
    edgeSourceMsg "qq" ∈ validateGraph invalidGraph ∧
    edgeTargetMsg "zz" ∈ validateGraph invalidGraph ∧
    loopMsg "ww" ∈ validateGraph invalidGraph :=
  ⟨(C4_validator_complete invalidGraph).2.1 (by decide),
   (C4_validator_complete invalidGraph).2.2.1
     { source := "qq", target := "a", condition := Option.none }
     (by simp [invalidGraph]) (by decide),
   (C4_validator_complete invalidGraph).2.2.2.1
     { source := "a", target := "zz", condition := Option.none }
     (by simp [invalidGraph]) (by decide),
   (C4_validator_complete invalidGraph).2.2.2.2
     ("ww", { condition := condMissingEqNone, max_iterations := 1 })
     (by simp [invalidGraph]) (by decide)⟩

end Workflow
